import Mathlib

/-!
Verification development for the tensile-test analysis pipeline
(`tensile_test_data.py` of pyAnalytics).

The Python code is shallowly embedded over exact rational arithmetic:
a pandas row becomes a `Row` of three optional rationals (a `none` field
models a NaN / missing cell), a DataFrame becomes a `List Row`, and the
in-place pandas operations become pure functions.  `np.around` is
round-half-to-even, embedded as `roundDec`.  Two collaborators imported
from outside this repository (`pyRegression.lin_reg_all_sections` and
`little_helpers.derivative`) are modelled from the specification; every
other definition is translated directly from the source.
-/

namespace PyTensile

/-- Round-half-to-even on a rational, the rounding mode of `np.around`. -/
def roundHalfEven (q : ℚ) : ℤ :=
  if q - ⌊q⌋ < 1/2 then ⌊q⌋
  else if (1:ℚ)/2 < q - ⌊q⌋ then ⌊q⌋ + 1
  else if Even ⌊q⌋ then ⌊q⌋ else ⌊q⌋ + 1

/-- Embeds np.around at `d` decimal places: round half to even. -/
def roundDec (d : ℕ) (q : ℚ) : ℚ := (roundHalfEven (q * 10 ^ d) : ℚ) / 10 ^ d

/-- One row of a tensile-test DataFrame; `none` models a NaN cell. -/
structure Row where
  strain : Option ℚ
  stress : Option ℚ
  tool_distance : Option ℚ
deriving DecidableEq, Repr

/-- Strain value of a row, defaulting missing to 0 (used only on complete rows). -/
def strainVal (r : Row) : ℚ := r.strain.getD 0

/-- Stress value of a row, defaulting missing to 0 (used only on complete rows). -/
def stressVal (r : Row) : ℚ := r.stress.getD 0

/-- Tool-distance value of a row, defaulting missing to 0. -/
def toolVal (r : Row) : ℚ := r.tool_distance.getD 0

/-- A row survives `dropna`: every column present in the frame is non-NaN.
`hasTool` records whether the frame has a `tool_distance` column. -/
def rowComplete (hasTool : Bool) (r : Row) : Bool :=
  r.strain.isSome && r.stress.isSome && (!hasTool || r.tool_distance.isSome)

/-- The pandas condition that the stress column is at least the preload;
false on a NaN stress. -/
def stressGE (p : ℚ) (r : Row) : Bool :=
  match r.stress with
  | some v => decide (p ≤ v)
  | none => false

/-- Worker for `drop_duplicates`: keep a row only when its strain key was not
seen before (pandas treats NaN keys as duplicates of each other, as does
equality on `Option ℚ`). -/
def dedupGo (seen : List (Option ℚ)) : List Row → List Row
  | [] => []
  | r :: rs =>
    if r.strain ∈ seen then dedupGo seen rs
    else r :: dedupGo (r.strain :: seen) rs

/-- Embeds drop_duplicates on the strain column, keeping first occurrences. -/
def drop_duplicates (l : List Row) : List Row := dedupGo [] l

/-- Ordering on strain keys used by sort_values: NaN strains sort last. -/
def keyLE : Option ℚ → Option ℚ → Prop
  | some x, some y => x ≤ y
  | some _, none => True
  | none, some _ => False
  | none, none => True

instance keyLE.decidable : ∀ a b, Decidable (keyLE a b)
  | some x, some y => inferInstanceAs (Decidable (x ≤ y))
  | some _, none => inferInstanceAs (Decidable True)
  | none, some _ => inferInstanceAs (Decidable False)
  | none, none => inferInstanceAs (Decidable True)

/-- Row comparison by strain key. -/
def strainLE (a b : Row) : Prop := keyLE a.strain b.strain

instance strainLE.decidable : DecidableRel strainLE :=
  fun a b => keyLE.decidable a.strain b.strain

instance strainLE.total : IsTotal Row strainLE := by
  constructor
  intro a b
  unfold strainLE
  cases a.strain <;> cases b.strain <;> simp only [keyLE]
  · exact Or.inl trivial
  · exact Or.inr trivial
  · exact Or.inl trivial
  · exact le_total _ _

instance strainLE.trans : IsTrans Row strainLE := by
  constructor
  intro a b c
  unfold strainLE
  cases a.strain <;> cases b.strain <;> cases c.strain <;> simp only [keyLE] <;>
    first
      | exact fun _ _ => trivial
      | exact fun h _ => h.elim
      | exact fun _ h => h.elim
      | exact fun h1 h2 => le_trans h1 h2

/-- Embeds sort_values by the strain column (NaN keys last; keys are distinct
after `drop_duplicates`, so the sort order is unambiguous). -/
def sort_values (l : List Row) : List Row := List.insertionSort strainLE l

/-- Modelled from the spec: the derivative collaborator
(`little_helpers.num_derive.derivative`, not part of this repository) —
central difference at interior points, one-sided difference at both ends;
value at index `i` of a curve of `n` points. -/
def derivAt (x y : List ℚ) (n i : ℕ) : ℚ :=
  if n < 2 then 0
  else if i = 0 then (y.getD 1 0 - y.getD 0 0) / (x.getD 1 0 - x.getD 0 0)
  else if i = n - 1 then
    (y.getD (n-1) 0 - y.getD (n-2) 0) / (x.getD (n-1) 0 - x.getD (n-2) 0)
  else (y.getD (i+1) 0 - y.getD (i-1) 0) / (x.getD (i+1) 0 - x.getD (i-1) 0)

/-- Modelled from the spec: `derivative(x, y) -> dy/dx` aligned to `x`. -/
def derivative (x y : List ℚ) : List ℚ :=
  (List.range x.length).map (derivAt x y x.length)

/-- Strain rebasing of the preload branch:
strain becomes `(h_0 - tool_distance) / h_0 * factor`. -/
def recompute_strain (h0 f : ℚ) (r : Row) : Row :=
  { r with strain := some ((h0 - toolVal r) / h0 * f) }

/-- The rows surviving the preload branch of `streamline_data`:
after dedup and sort, `where(stress >= preload)` NaNs out failing rows and
`dropna` removes every row holding any NaN, so exactly the complete rows
with stress at least `p` remain. -/
def preload_kept (p : ℚ) (rows : List Row) : List Row :=
  (sort_values (drop_duplicates rows)).filter
    (fun r => rowComplete true r && stressGE p r)

/-- `tensile_test.streamline_data`, translated line by line:
drop duplicate strains keeping the first, sort by strain, then either the
preload branch (filter by stress, rebase strain from the first remaining
tool distance, attach the stress-over-strain derivative) or plain `dropna`.
reading the tool-distance column of a frame without it raises `KeyError`;
`.iloc[0]` on an emptied frame raises `IndexError`; both are uncaught. -/
def streamline_data (preload : Option ℚ) (hasTool : Bool) (f : ℚ)
    (rows : List Row) : Except String (List Row × Option (List ℚ)) :=
  match preload with
  | none => .ok ((sort_values (drop_duplicates rows)).filter (rowComplete hasTool), none)
  | some p =>
    if hasTool then
      match preload_kept p rows with
      | [] => .error "IndexError: single positional indexer is out-of-bounds"
      | r0 :: rest =>
        let newRows := (r0 :: rest).map (recompute_strain (toolVal r0) f)
        .ok (newRows, some (derivative (newRows.map strainVal) (newRows.map stressVal)))
    else .error "KeyError: tool_distance"

/-! ### The linear-region detector (modelled from the spec, §4.3)

`lin_reg_all_sections` is imported from `pyRegression.linear_regression`,
which is not part of this repository; the definitions below follow the
specification: for every window size `k = 2..M` fit an ordinary
least-squares line of stress on strain through the first `k` points,
record `(slope, intercept, r_squared)`, and report the fit of the last
`k`, scanning upward, whose `r_squared` is at least the threshold.
A window of zero strain variance is excluded from the qualification scan.
-/

/-- Sum of a list of rationals. -/
def sumL (l : List ℚ) : ℚ := l.foldr (· + ·) 0

/-- The first `k` points of the sub-curve, as (strain, stress) pairs. -/
def window (x y : List ℚ) (k : ℕ) : List (ℚ × ℚ) := (x.zip y).take k

/-- Scaled strain variance `n·Σx² - (Σx)²` of a window. -/
def sxxOf (pts : List (ℚ × ℚ)) : ℚ :=
  (pts.length : ℚ) * sumL (pts.map (fun p => p.1 * p.1)) -
    sumL (pts.map Prod.fst) * sumL (pts.map Prod.fst)

/-- Modelled from the spec: OLS slope of stress on strain over a window. -/
def olsSlope (pts : List (ℚ × ℚ)) : ℚ :=
  ((pts.length : ℚ) * sumL (pts.map (fun p => p.1 * p.2)) -
    sumL (pts.map Prod.fst) * sumL (pts.map Prod.snd)) / sxxOf pts

/-- Modelled from the spec: OLS intercept of stress on strain over a window. -/
def olsIntercept (pts : List (ℚ × ℚ)) : ℚ :=
  (sumL (pts.map Prod.snd) - olsSlope pts * sumL (pts.map Prod.fst)) /
    (pts.length : ℚ)

/-- Residual sum of squares of the OLS fit over a window. -/
def ssRes (pts : List (ℚ × ℚ)) : ℚ :=
  sumL (pts.map (fun p => (p.2 - (olsSlope pts * p.1 + olsIntercept pts)) ^ 2))

/-- Total sum of squares of the stresses of a window. -/
def ssTot (pts : List (ℚ × ℚ)) : ℚ :=
  sumL (pts.map (fun p => (p.2 - sumL (pts.map Prod.snd) / (pts.length : ℚ)) ^ 2))

/-- Modelled from the spec: coefficient of determination `R² = 1 - SSres/SStot`
of the OLS fit over a window. -/
def r_squared (pts : List (ℚ × ℚ)) : ℚ := 1 - ssRes pts / ssTot pts

/-- Window size `k` qualifies: nonzero strain variance and `R² ≥ τ`. -/
def qualifiesB (x y : List ℚ) (tau : ℚ) (k : ℕ) : Bool :=
  decide (sxxOf (window x y k) ≠ 0) && decide (tau ≤ r_squared (window x y k))

/-- The window sizes scanned by the sweep: `k = 2..M`. -/
def detector_ks (M : ℕ) : List ℕ := List.range' 2 (M - 1)

/-- The qualifying window sizes, in scan order. -/
def qualifying_ks (x y : List ℚ) (tau : ℚ) : List ℕ :=
  (detector_ks (min x.length y.length)).filter (qualifiesB x y tau)

/-- Result record of the linear-region detector. -/
structure RegResult where
  linear_limit : ℚ
  slope_at_limit : ℚ
  intercept_at_limit : ℚ
  trace : List (ℕ × ℚ × ℚ × ℚ)
deriving DecidableEq, Repr

/-- Modelled from the spec: `pyRegression.linear_regression.lin_reg_all_sections`
(not part of this repository).  Fewer than 2 points is the
`InsufficientDataError` condition; otherwise the reported values come from
the last qualifying window size of the upward scan. -/
def lin_reg_all_sections (x y : List ℚ) (tau : ℚ) : Except String RegResult :=
  if min x.length y.length < 2 then .error "InsufficientDataError"
  else
    match (qualifying_ks x y tau).getLast? with
    | none => .error "NoQualifyingWindow"
    | some k =>
      .ok { linear_limit := x.getD (k - 1) 0
            slope_at_limit := olsSlope (window x y k)
            intercept_at_limit := olsIntercept (window x y k)
            trace := (detector_ks (min x.length y.length)).map
              (fun j => (j, olsSlope (window x y j), olsIntercept (window x y j),
                r_squared (window x y j))) }

/-! ### `calc_e_modulus` (smoothing disabled; the Savitzky-Golay collaborator
is external and orthogonal to the claims below) -/

/-- The strain crop of `calc_e_modulus`: the code drops the index sets
`strain <= lower_strain_limit` and `strain >= upper_strain_limit`. -/
def crop_sample (lower upper : ℚ) (rows : List Row) : List Row :=
  (rows.filter (fun r => !decide (strainVal r ≤ lower))).filter
    (fun r => !decide (upper ≤ strainVal r))

/-- Per-sample results of `calc_e_modulus`. -/
structure EmodResult where
  e_modulus : ℚ
  linear_limit : ℚ
  slope_at_limit : ℚ
  intercept_at_limit : ℚ
deriving DecidableEq, Repr

/-- One sample of `calc_e_modulus` with `smoothing=False`: crop the strain
range, run the regression sweep, then
`curr_e_modulus = np.around(curr_slope_at_limit, 3) * factor` followed by
`.round(3)` when stored. -/
def calc_e_modulus_sample (tau lower upper f : ℚ) (rows : List Row) :
    Except String EmodResult :=
  (lin_reg_all_sections ((crop_sample lower upper rows).map strainVal)
      ((crop_sample lower upper rows).map stressVal) tau).map
    (fun res =>
      { e_modulus := roundDec 3 (roundDec 3 res.slope_at_limit * f)
        linear_limit := res.linear_limit
        slope_at_limit := res.slope_at_limit
        intercept_at_limit := res.intercept_at_limit })

/-! ### `calc_strength`, `calc_toughness`, `calc_elongation_at_break` -/

/-- Maximum of a list of rationals (`Series.max()`), `none` on an empty list. -/
def listMax : List ℚ → Option ℚ
  | [] => none
  | a :: rest =>
    match listMax rest with
    | none => some a
    | some m => some (max a m)

/-- One sample of `calc_strength`: the stress maximum, rounded to 1 decimal. -/
def calc_strength_sample (rows : List Row) : Option ℚ :=
  (listMax (rows.map stressVal)).map (roundDec 1)

/-- `np.trapz(y, x)`: the composite trapezoidal rule. -/
def trapz : List ℚ → List ℚ → ℚ
  | y0 :: y1 :: ys, x0 :: x1 :: xs =>
    (x1 - x0) * (y0 + y1) / 2 + trapz (y1 :: ys) (x1 :: xs)
  | _, _ => 0

/-- One sample of `calc_toughness`:
`np.around(np.trapz(stress, x=strain) / factor, 1)`. -/
def calc_toughness_sample (f : ℚ) (rows : List Row) : ℚ :=
  roundDec 1 (trapz (rows.map stressVal) (rows.map strainVal) / f)

/-- Positional index of the first occurrence of `m` (`Series.idxmax()` on a
default integer index). -/
def findIdxOf (m : ℚ) (l : List ℚ) : ℕ := l.findIdx (fun v => decide (v = m))

/-- One sample of `calc_elongation_at_break`:
the strain at the first index attaining the stress maximum, rounded to
1 decimal. -/
def calc_elongation_sample (rows : List Row) : Option ℚ :=
  (listMax (rows.map stressVal)).map
    (fun m => roundDec 1 ((rows.map strainVal).getD
      (findIdxOf m (rows.map stressVal)) 0))

/-! ### The constructor, with an explicit object store

`__init__` validates the strain unit, imports the raw frames into
`self.raw_original`, deep-copies them into `self.raw`, and streamlines each
entry of `self.raw` in place.  DataFrames are modelled as heap objects
addressed by natural-number references so that aliasing and in-place
mutation are visible: the deep copy allocates fresh references
`n..2n-1` whose contents start equal to the originals at `0..n-1`. -/

/-- A DataFrame object: its rows plus the optional `deriv` column added by
the preload branch. -/
structure Frame where
  rows : List Row
  deriv : Option (List ℚ)
deriving DecidableEq, Repr

/-- A frame as imported: just rows, no `deriv` column. -/
def mkFrame (rows : List Row) : Frame := ⟨rows, none⟩

/-- `streamline_data` acting on a frame object. -/
def stream_frame (p : Option ℚ) (hasTool : Bool) (f : ℚ) (fr : Frame) :
    Except String Frame :=
  (streamline_data p hasTool f fr.rows).map (fun rd => ⟨rd.1, rd.2⟩)

/-- In-place streamlining of the object behind reference `i`: the heap entry
is overwritten and the very same reference is handed back (the Python
method mutates and returns its argument). -/
def streamline_ref (p : Option ℚ) (hasTool : Bool) (f : ℚ)
    (heap : ℕ → Frame) (i : ℕ) : Except String ((ℕ → Frame) × ℕ) :=
  (stream_frame p hasTool f (heap i)).map
    (fun fr => (Function.update heap i fr, i))

/-- One step of the constructor loop `for sample in self.raw: ...`. -/
def stream_step (p : Option ℚ) (hasTool : Bool) (f : ℚ)
    (heap : ℕ → Frame) (i : ℕ) : Except String (ℕ → Frame) :=
  (streamline_ref p hasTool f heap i).map Prod.fst

/-- The constructor loop `for sample in self.raw: ...` over a list of
references: each step streamlines one frame in place; the first uncaught
exception aborts the loop. -/
def stream_fold (p : Option ℚ) (hasTool : Bool) (f : ℚ) :
    List ℕ → (ℕ → Frame) → Except String (ℕ → Frame)
  | [], heap => .ok heap
  | i :: is, heap =>
    match stream_step p hasTool f heap i with
    | .error e => .error e
    | .ok heap2 => stream_fold p hasTool f is heap2

/-- Unit validation of `__init__`: factor 1 for dimensionless strain, 100 for
percent, `ValueError` otherwise. -/
def strain_conversion_factor (unit : String) : Except String ℚ :=
  if unit = "" then .ok 1
  else if unit = "%" then .ok 100
  else .error "No valid unit_strain."

/-- The initial heap: imported frames at references `0..n-1`
(`self.raw_original`), their deep copies at `n..2n-1` (`self.raw`). -/
def init_heap (data : List (List Row)) : ℕ → Frame := fun j =>
  if j < data.length then mkFrame (data.getD j [])
  else if j < data.length + data.length then
    mkFrame (data.getD (j - data.length) [])
  else mkFrame []

/-- The state of a `tensile_test` object after construction. -/
structure TTState where
  factor : ℚ
  heap : ℕ → Frame
  raw_original_refs : List ℕ
  raw_refs : List ℕ
  results_strength : List (Option ℚ)
  results_toughness : List ℚ
  results_elongation : List (Option ℚ)
  results_e_modulus : List (Except String EmodResult)

/-- `tensile_test.__init__`: validate the unit (before any sample is
touched), import, deep-copy, then streamline every `self.raw` entry in
place.  An exception escaping `streamline_data` aborts construction. -/
def tensile_test_init (unit : String) (preload : Option ℚ) (hasTool : Bool)
    (data : List (List Row)) : Except String TTState :=
  match strain_conversion_factor unit with
  | .error e => .error e
  | .ok f =>
    match stream_fold preload hasTool f
        (List.range' data.length data.length) (init_heap data) with
    | .error e => .error e
    | .ok heap1 =>
      .ok ⟨f, heap1, List.range data.length,
        List.range' data.length data.length, [], [], [], []⟩

/-- Is an `Except` value a success? -/
def isOkE {ε α : Type} : Except ε α → Bool
  | .ok _ => true
  | .error _ => false

/-- `calc_strength`: reads `self.raw`, writes only `self.strength` and the
results table. -/
def calc_strength_state (st : TTState) : TTState :=
  { st with results_strength :=
      st.raw_refs.map (fun i => calc_strength_sample (st.heap i).rows) }

/-- `calc_toughness`: reads `self.raw`, writes only the results table. -/
def calc_toughness_state (st : TTState) : TTState :=
  { st with results_toughness :=
      st.raw_refs.map (fun i => calc_toughness_sample st.factor (st.heap i).rows) }

/-- `calc_elongation_at_break`: reads `self.raw`, writes only the results
table. -/
def calc_elongation_state (st : TTState) : TTState :=
  { st with results_elongation :=
      st.raw_refs.map (fun i => calc_elongation_sample (st.heap i).rows) }

/-- `calc_e_modulus` with `smoothing=False`: works on `sample.copy()` of each
`self.raw` entry, writes only the results table. -/
def calc_e_modulus_state (tau lower upper : ℚ) (st : TTState) : TTState :=
  { st with results_e_modulus :=
      st.raw_refs.map (fun i =>
        calc_e_modulus_sample tau lower upper st.factor (st.heap i).rows) }

/-! ### Supporting lemmas -/

instance : Inhabited Row := ⟨⟨none, none, none⟩⟩

lemma roundHalfEven_intCast (z : ℤ) : roundHalfEven (z : ℚ) = z := by
  unfold roundHalfEven
  rw [Int.floor_intCast]
  norm_num

lemma roundDec_idem (d : ℕ) (q : ℚ) : roundDec d (roundDec d q) = roundDec d q := by
  unfold roundDec
  rw [div_mul_cancel₀ _ (by positivity : ((10:ℚ)) ^ d ≠ 0), roundHalfEven_intCast]

lemma dedupGo_not_mem_seen (l : List Row) :
    ∀ (seen : List (Option ℚ)) (r : Row), r ∈ dedupGo seen l → r.strain ∉ seen := by
  induction l with
  | nil => intro seen r h; simp [dedupGo] at h
  | cons a t ih =>
    intro seen r h
    rw [dedupGo] at h
    by_cases ha : a.strain ∈ seen
    · rw [if_pos ha] at h; exact ih seen r h
    · rw [if_neg ha] at h
      rcases List.mem_cons.mp h with rfl | h2
      · exact ha
      · have h3 := ih _ r h2
        intro hc
        exact h3 (List.mem_cons_of_mem _ hc)

lemma dedupGo_pairwise_ne (l : List Row) :
    ∀ seen, (dedupGo seen l).Pairwise (fun a b => a.strain ≠ b.strain) := by
  induction l with
  | nil => intro seen; simp [dedupGo]
  | cons a t ih =>
    intro seen
    rw [dedupGo]
    by_cases ha : a.strain ∈ seen
    · rw [if_pos ha]; exact ih seen
    · rw [if_neg ha]
      refine List.Pairwise.cons ?_ (ih _)
      intro b hb hab
      exact (dedupGo_not_mem_seen t _ b hb) (hab ▸ List.mem_cons_self _ _)

lemma dedupGo_eq_self (l : List Row) : ∀ (seen : List (Option ℚ)),
    (∀ r ∈ l, r.strain ∉ seen) →
    l.Pairwise (fun a b => a.strain ≠ b.strain) → dedupGo seen l = l := by
  induction l with
  | nil => intro seen _ _; rfl
  | cons a t ih =>
    intro seen hseen hpw
    rw [dedupGo, if_neg (hseen a (List.mem_cons_self a t))]
    congr 1
    refine ih _ ?_ (List.pairwise_cons.mp hpw).2
    intro r hr hc
    rcases List.mem_cons.mp hc with heq | hin
    · exact (List.pairwise_cons.mp hpw).1 r hr heq.symm
    · exact hseen r (List.mem_cons_of_mem _ hr) hin

lemma strainVal_lt_of (a b : Row) (ha : a.strain.isSome = true)
    (hb : b.strain.isSome = true) (hle : strainLE a b) (hne : a.strain ≠ b.strain) :
    strainVal a < strainVal b := by
  cases haa : a.strain with
  | none => rw [haa] at ha; simp at ha
  | some xa =>
    cases hbb : b.strain with
    | none => rw [hbb] at hb; simp at hb
    | some xb =>
      unfold strainLE at hle
      rw [haa, hbb] at hle hne
      simp only [keyLE] at hle
      have : xa ≠ xb := fun hc => hne (by rw [hc])
      simp [strainVal, haa, hbb]
      exact lt_of_le_of_ne hle this

lemma sort_values_pairwise_le (l : List Row) :
    (sort_values l).Pairwise strainLE :=
  List.sorted_insertionSort strainLE l

lemma sort_values_perm (l : List Row) : List.Perm (sort_values l) l :=
  List.perm_insertionSort strainLE l

lemma rowComplete_strain_isSome (hasTool : Bool) (r : Row)
    (h : rowComplete hasTool r = true) : r.strain.isSome = true := by
  unfold rowComplete at h
  simp only [Bool.and_eq_true] at h
  exact h.1.1

/-- The cleaned rows of the no-preload branch: pairwise strictly increasing
strain on the complete rows. -/
lemma clean_rows_pairwise (hasTool : Bool) (rows : List Row) :
    ((sort_values (drop_duplicates rows)).filter (rowComplete hasTool)).Pairwise
      (fun a b => strainVal a < strainVal b) := by
  have hne : (sort_values (drop_duplicates rows)).Pairwise
      (fun a b => a.strain ≠ b.strain) := by
    exact ((sort_values_perm (drop_duplicates rows)).pairwise_iff
      (fun h hc => h hc.symm)).mpr (dedupGo_pairwise_ne rows [])
  have hle := sort_values_pairwise_le (drop_duplicates rows)
  have hboth := (hle.and hne).filter (rowComplete hasTool)
  refine hboth.imp_of_mem ?_
  intro a b hma hmb hab
  exact strainVal_lt_of a b
    (rowComplete_strain_isSome _ _ (List.of_mem_filter hma))
    (rowComplete_strain_isSome _ _ (List.of_mem_filter hmb))
    hab.1 hab.2

/-- C4, counterexample: with the preload option, the cleaned curve need not
have increasing strain.  Two complete rows, sorted by their original strain,
have tool distances 5 then 7; rebasing against `h_0 = 5` yields strains
`0` then `-40`, a strictly decreasing output. -/
theorem c4_counterexample :
    (streamline_data (some 0) true 100
        [⟨some 0, some 1, some 5⟩, ⟨some 1, some 1, some 7⟩]).map
      (fun o => o.1.map Row.strain) = .ok [some 0, some (-40)] ∧
    ¬ ((0:ℚ) < -40) := by
  constructor
  · norm_num [streamline_data, preload_kept, drop_duplicates, dedupGo,
      sort_values, List.insertionSort, List.orderedInsert, strainLE, keyLE,
      rowComplete, stressGE, List.filter, recompute_strain, toolVal,
      Except.map]
  · norm_num

/-- C4, amended: without the preload option, `streamline_data` never raises,
its output rows have strictly increasing (hence duplicate-free) strain
values, every column present in the frame is non-missing, and re-applying
the cleaning to its own output returns it unchanged.  (With preload the
guarantee fails, see the counterexample.) -/
theorem c4_clean_invariants (hasTool : Bool) (f : ℚ) (rows : List Row) :
    ∃ out, streamline_data none hasTool f rows = .ok (out, none) ∧
      out.Pairwise (fun a b => strainVal a < strainVal b) ∧
      (∀ r ∈ out, rowComplete hasTool r = true) ∧
      streamline_data none hasTool f out = .ok (out, none) := by
  refine ⟨(sort_values (drop_duplicates rows)).filter (rowComplete hasTool),
    rfl, clean_rows_pairwise hasTool rows, ?_, ?_⟩
  · intro r hr; exact List.of_mem_filter hr
  · set out := (sort_values (drop_duplicates rows)).filter (rowComplete hasTool)
      with hout
    have hpw : out.Pairwise (fun a b => a.strain ≠ b.strain) := by
      refine (clean_rows_pairwise hasTool rows).imp ?_
      intro a b hab hc
      rw [show strainVal a = strainVal b from by
        simp [strainVal, hc]] at hab
      exact lt_irrefl _ hab
    have hded : drop_duplicates out = out :=
      dedupGo_eq_self out [] (by intro r _ hc; simp at hc) hpw
    have hsorted : out.Pairwise strainLE := by
      rw [hout]
      exact (sort_values_pairwise_le (drop_duplicates rows)).filter _
    have hsort : sort_values out = out :=
      List.Sorted.insertionSort_eq hsorted
    have hfil : out.filter (rowComplete hasTool) = out :=
      List.filter_eq_self.mpr (fun r hr => List.of_mem_filter hr)
    show Except.ok ((sort_values (drop_duplicates out)).filter (rowComplete hasTool), none) = _
    rw [hded, hsort, hfil]

lemma sorted_lt_le_getLast (l : List ℕ) : ∀ (k : ℕ),
    l.Pairwise (· < ·) → l.getLast? = some k → ∀ x ∈ l, x ≤ k := by
  induction l with
  | nil => intro k _ h; simp at h
  | cons a t ih =>
    intro k hpw hlast x hx
    cases t with
    | nil =>
      simp only [List.getLast?_singleton, Option.some.injEq] at hlast
      simp only [List.mem_singleton] at hx
      omega
    | cons b t2 =>
      rw [List.getLast?_cons_cons] at hlast
      rcases List.mem_cons.mp hx with rfl | hx2
      · have hk : k ∈ b :: t2 := List.mem_of_getLast?_eq_some hlast
        have := (List.pairwise_cons.mp hpw).1 k hk
        omega
      · exact ih k (List.pairwise_cons.mp hpw).2 hlast x hx2

lemma detector_ks_pairwise (M : ℕ) : (detector_ks M).Pairwise (· < ·) :=
  List.pairwise_lt_range' 2 (M - 1) 1 Nat.one_pos

lemma mem_detector_ks {M k : ℕ} (hM : 2 ≤ M) :
    k ∈ detector_ks M ↔ 2 ≤ k ∧ k ≤ M := by
  unfold detector_ks
  rw [List.mem_range'_1]
  omega

/-- The strain-stress curve of the piecewise scenario: strain `0..9`. -/
def piecewise_strain : List ℚ := [0, 1, 2, 3, 4, 5, 6, 7, 8, 9]

/-- Stress of the piecewise scenario: `2·strain` below strain 5,
`10 + 0.1·(strain - 5)` from strain 5 on. -/
def piecewise_stress : List ℚ :=
  [0, 2, 4, 6, 8, 10, 101/10, 51/5, 103/10, 52/5]

/-- C1: (spec-modelled detector) with at least two points and at least one
qualifying window, the detector reports `linear_limit` as the strain of the
last window size `k` of the upward scan whose `R²` meets the threshold, and
the slope and the intercept of exactly that fit; no larger scanned `k`
qualifies.  On the piecewise curve (strain `0..9`, stress `2·strain` below
strain 5, `10 + 0.1·(strain-5)` from 5 on) with `τ = 0.995` the result is
`linear_limit = 5` and `slope_at_limit = 2`. -/
theorem c1_detector (x y : List ℚ) (tau : ℚ) (k : ℕ)
    (hM : 2 ≤ min x.length y.length)
    (hk : (qualifying_ks x y tau).getLast? = some k) :
    (∃ res, lin_reg_all_sections x y tau = .ok res ∧
      res.linear_limit = x.getD (k - 1) 0 ∧
      res.slope_at_limit = olsSlope (window x y k) ∧
      res.intercept_at_limit = olsIntercept (window x y k)) ∧
    qualifiesB x y tau k = true ∧ 2 ≤ k ∧ k ≤ min x.length y.length ∧
    (∀ j, k < j → j ≤ min x.length y.length → qualifiesB x y tau j = false) ∧
    (lin_reg_all_sections piecewise_strain piecewise_stress (199/200)).map
      (fun r => (r.linear_limit, r.slope_at_limit)) = .ok (5, 2) := by
  have hmem : k ∈ qualifying_ks x y tau := List.mem_of_getLast?_eq_some hk
  have hmem2 := List.mem_filter.mp hmem
  have hbounds := (mem_detector_ks hM).mp hmem2.1
  refine ⟨?_, hmem2.2, hbounds.1, hbounds.2, ?_, ?_⟩
  · refine ⟨{ linear_limit := x.getD (k - 1) 0
              slope_at_limit := olsSlope (window x y k)
              intercept_at_limit := olsIntercept (window x y k)
              trace := (detector_ks (min x.length y.length)).map
                (fun j => (j, olsSlope (window x y j), olsIntercept (window x y j),
                  r_squared (window x y j))) }, ?_, rfl, rfl, rfl⟩
    unfold lin_reg_all_sections
    rw [if_neg (by omega), hk]
  · intro j hkj hjM
    by_contra hq
    rw [Bool.not_eq_false] at hq
    have hjmem : j ∈ qualifying_ks x y tau :=
      List.mem_filter.mpr ⟨(mem_detector_ks hM).mpr ⟨by omega, hjM⟩, hq⟩
    have hle := sorted_lt_le_getLast (qualifying_ks x y tau) k
      ((detector_ks_pairwise _).filter _) hk j hjmem
    omega
  · have hq : qualifying_ks piecewise_strain piecewise_stress (199/200) =
        [2, 3, 4, 5, 6] := by
      norm_num [qualifying_ks, detector_ks, piecewise_strain, piecewise_stress,
        qualifiesB, window, sxxOf, r_squared, ssRes, ssTot, olsSlope,
        olsIntercept, sumL, List.range', List.filter, List.zip, List.zipWith,
        List.take]
    have hlast : (qualifying_ks piecewise_strain piecewise_stress
        (199/200)).getLast? = some 6 := by rw [hq]; rfl
    unfold lin_reg_all_sections
    rw [if_neg (by norm_num [piecewise_strain, piecewise_stress]), hlast]
    norm_num [piecewise_strain, piecewise_stress, window, olsSlope, sxxOf,
      sumL, List.zip, List.zipWith, List.take, Except.map]

/-- Witness for C1 at the piecewise scenario: window size 6 (strain 5) is the
last qualifying one. -/
theorem c1_detector_witness :
    qualifiesB piecewise_strain piecewise_stress (199/200) 6 = true :=
  (c1_detector piecewise_strain piecewise_stress (199/200) 6
    (by norm_num [piecewise_strain, piecewise_stress])
    (by
      have hq : qualifying_ks piecewise_strain piecewise_stress (199/200) =
          [2, 3, 4, 5, 6] := by
        norm_num [qualifying_ks, detector_ks, piecewise_strain,
          piecewise_stress, qualifiesB, window, sxxOf, r_squared, ssRes,
          ssTot, olsSlope, olsIntercept, sumL, List.range', List.filter,
          List.zip, List.zipWith, List.take]
      rw [hq]; rfl)).2.1

/-- A two-point sample with slope `0.0004` inside the default strain crop. -/
def rowsC2 : List Row := [⟨some 1, some 0, none⟩, ⟨some 2, some (1/2500), none⟩]

/-- C2, counterexample: with conversion factor 100 on a perfectly linear
two-point sample of slope `0.0004`, the code reports an elastic modulus of
`0` (the slope is rounded to 3 decimals before the multiplication), while
rounding the product `slope * factor` would give `0.04`. -/
theorem c2_counterexample :
    (calc_e_modulus_sample (199/200) 0 50 100 rowsC2).map
      (fun r => r.e_modulus) = .ok 0 ∧
    (calc_e_modulus_sample (199/200) 0 50 100 rowsC2).map
      (fun r => roundDec 3 (r.slope_at_limit * 100)) = .ok (1/25) ∧
    (0 : ℚ) ≠ 1/25 := by
  refine ⟨?_, ?_, by norm_num⟩ <;>
    norm_num [calc_e_modulus_sample, crop_sample, rowsC2, strainVal, stressVal,
      lin_reg_all_sections, qualifying_ks, detector_ks, qualifiesB, window,
      sxxOf, r_squared, ssRes, ssTot, olsSlope, olsIntercept, sumL,
      List.range', List.filter, List.zip, List.zipWith, List.take,
      Except.map, List.getLast?, roundDec, roundHalfEven]

/-- C2, amended: the reported elastic modulus is
`round3(round3(slope_at_limit) * factor)` — the slope is rounded to
3 decimals before the multiplication and the product rounded again.  For
conversion factor 1 this coincides with rounding the product; for factor
100 it need not (see the counterexample). -/
theorem c2_rounding (tau lower upper f : ℚ) (rows : List Row)
    (res : EmodResult)
    (h : calc_e_modulus_sample tau lower upper f rows = .ok res) :
    res.e_modulus = roundDec 3 (roundDec 3 res.slope_at_limit * f) ∧
    (f = 1 → res.e_modulus = roundDec 3 (res.slope_at_limit * f)) := by
  unfold calc_e_modulus_sample at h
  cases hl : lin_reg_all_sections ((crop_sample lower upper rows).map strainVal)
      ((crop_sample lower upper rows).map stressVal) tau with
  | error e => rw [hl] at h; simp [Except.map] at h
  | ok r0 =>
    rw [hl] at h
    simp only [Except.map, Except.ok.injEq] at h
    subst h
    refine ⟨rfl, ?_⟩
    rintro rfl
    simp only
    rw [mul_one, mul_one, roundDec_idem]

/-- Witness for the amended C2 theorem at the concrete two-point sample. -/
theorem c2_rounding_witness :
    (⟨0, 2, 1/2500, -1/2500⟩ : EmodResult).e_modulus =
      roundDec 3 (roundDec 3 (⟨0, 2, 1/2500, -1/2500⟩ : EmodResult).slope_at_limit
        * 100) :=
  (c2_rounding (199/200) 0 50 100 rowsC2 ⟨0, 2, 1/2500, -1/2500⟩
    (by norm_num [calc_e_modulus_sample, crop_sample, rowsC2, strainVal,
      stressVal, lin_reg_all_sections, qualifying_ks, detector_ks, qualifiesB,
      window, sxxOf, r_squared, ssRes, ssTot, olsSlope, olsIntercept, sumL,
      List.range', List.filter, List.zip, List.zipWith, List.take,
      Except.map, List.getLast?, roundDec, roundHalfEven, EmodResult.mk.injEq])).1

/-- A three-point sample with strains 1, 2, 3. -/
def rowsC3 : List Row :=
  [⟨some 1, some 1, none⟩, ⟨some 2, some 2, none⟩, ⟨some 3, some 3, none⟩]

/-- C3, counterexample: with `lower_strain_limit = 1`, `upper_strain_limit = 3`,
the point at strain exactly 1 lies in the half-open interval `[1, 3)` claimed
by the spec, yet the crop handed to the regression sweep drops it: only the
strain-2 point survives. -/
theorem c3_counterexample :
    (⟨some 1, some 1, none⟩ : Row) ∈ rowsC3 ∧
    (1:ℚ) ≤ strainVal ⟨some 1, some 1, none⟩ ∧
    strainVal (⟨some 1, some 1, none⟩ : Row) < 3 ∧
    (⟨some 1, some 1, none⟩ : Row) ∉ crop_sample 1 3 rowsC3 ∧
    crop_sample 1 3 rowsC3 = [⟨some 2, some 2, none⟩] := by
  norm_num [rowsC3, crop_sample, List.filter, strainVal]

/-- C3, amended: the sub-curve handed to the regression sweep contains exactly
the points whose strain lies in the open interval
`(lower_strain_limit, upper_strain_limit)`: points at either endpoint are
excluded. -/
theorem c3_crop_open_interval (lower upper : ℚ) (rows : List Row) (r : Row) :
    r ∈ crop_sample lower upper rows ↔
      r ∈ rows ∧ lower < strainVal r ∧ strainVal r < upper := by
  unfold crop_sample
  simp only [List.mem_filter, Bool.not_eq_eq_eq_not, Bool.not_true,
    decide_eq_false_iff_not, not_le]
  tauto

/-- A complete row: strain 0, stress 5, tool distance 10. -/
def rowA : Row := ⟨some 0, some 5, some 10⟩

/-- A complete row duplicating the strain of `rowA`: stress 7, tool distance 8. -/
def rowC : Row := ⟨some 0, some 7, some 8⟩

/-- C6, counterexample: with preload 0, both rows are complete and have stress
not below the preload, yet the cleaned output keeps only one of them — the
duplicate-strain row is removed before the preload filter, so the preload
branch does not keep exactly the rows whose stress is not below preload. -/
theorem c6_counterexample :
    stressGE 0 rowA = true ∧ stressGE 0 rowC = true ∧
    rowComplete true rowA = true ∧ rowComplete true rowC = true ∧
    (streamline_data (some 0) true 100 [rowA, rowC]).map
      (fun o => o.1.length) = .ok 1 := by
  refine ⟨by norm_num [stressGE, rowA], by norm_num [stressGE, rowC],
    by norm_num [rowComplete, rowA], by norm_num [rowComplete, rowC], ?_⟩
  norm_num [streamline_data, preload_kept, drop_duplicates, dedupGo,
    sort_values, List.insertionSort, List.orderedInsert, strainLE, keyLE,
    rowA, rowC, rowComplete, stressGE, List.filter, recompute_strain, toolVal,
    Except.map]

/-- C6, amended: when preload is set, cleaning first removes duplicate-strain
rows (keeping first occurrences) and sorts by strain; among those rows it
keeps exactly the complete ones whose stress is not below the preload; `h_0`
is the tool distance of the first kept row; the strain of every kept row is
recomputed as `(h_0 - tool_distance) / h_0 * factor`; and a
derivative-of-stress-with-respect-to-strain sequence aligned to the new
curve is attached. -/
theorem c6_preload_branch (p f : ℚ) (rows out : List Row)
    (d : Option (List ℚ))
    (h : streamline_data (some p) true f rows = .ok (out, d)) :
    ∃ r0 rest, preload_kept p rows = r0 :: rest ∧
      out = (r0 :: rest).map (recompute_strain (toolVal r0) f) ∧
      d = some (derivative (out.map strainVal) (out.map stressVal)) ∧
      ∀ r ∈ sort_values (drop_duplicates rows),
        (r ∈ preload_kept p rows ↔
          rowComplete true r = true ∧ stressGE p r = true) := by
  simp only [streamline_data, if_pos] at h
  cases hk : preload_kept p rows with
  | nil => rw [hk] at h; cases h
  | cons r0 rest =>
    rw [hk] at h
    simp only [Except.ok.injEq, Prod.mk.injEq] at h
    refine ⟨r0, rest, rfl, h.1.symm, ?_, ?_⟩
    · rw [← h.2, h.1]
    · intro r hr
      rw [← hk]
      unfold preload_kept
      rw [List.mem_filter]
      simp only [Bool.and_eq_true]
      tauto

/-- Witness for the amended C6 theorem: with preload 0 the single complete row
`rowA` is kept, its strain is rebased to 0 and a one-point derivative is
attached. -/
theorem c6_preload_branch_witness :
    ∃ r0 rest, preload_kept 0 [rowA] = r0 :: rest ∧
      [rowA] = (r0 :: rest).map (recompute_strain (toolVal r0) 100) ∧
      (some [0] : Option (List ℚ)) =
        some (derivative ([rowA].map strainVal) ([rowA].map stressVal)) ∧
      ∀ r ∈ sort_values (drop_duplicates [rowA]),
        (r ∈ preload_kept 0 [rowA] ↔
          rowComplete true r = true ∧ stressGE 0 r = true) :=
  c6_preload_branch 0 100 [rowA] [rowA] (some [0])
    (by norm_num [streamline_data, preload_kept, drop_duplicates, dedupGo,
      sort_values, List.insertionSort, strainLE, keyLE, rowA, rowComplete,
      stressGE, List.filter, recompute_strain, toolVal, Except.map,
      derivative, derivAt, strainVal, stressVal, List.range_succ,
      List.range_zero])

lemma stream_fold_error (p : Option ℚ) (ht : Bool) (f : ℚ) :
    ∀ (ds : List (List Row)) (start : ℕ) (heap : ℕ → Frame),
      (∀ j, j < ds.length → heap (start + j) = mkFrame (ds.getD j [])) →
      (∃ rs ∈ ds, isOkE (streamline_data p ht f rs) = false) →
      isOkE (stream_fold p ht f (List.range' start ds.length) heap) = false := by
  intro ds
  induction ds with
  | nil =>
    intro start heap _ hex
    rcases hex with ⟨rs, hm, _⟩
    simp at hm
  | cons d t ih =>
    intro start heap hinv hex
    have h0 : heap start = mkFrame d := by
      have := hinv 0 (by simp)
      simpa using this
    rw [List.length_cons, List.range'_succ, stream_fold]
    cases hsd : streamline_data p ht f d with
    | error e =>
      have hstep : stream_step p ht f heap start = .error e := by
        simp [stream_step, streamline_ref, stream_frame, h0, mkFrame, hsd,
          Except.map]
      rw [hstep]
      rfl
    | ok v =>
      have hstep : stream_step p ht f heap start =
          .ok (Function.update heap start ⟨v.1, v.2⟩) := by
        simp [stream_step, streamline_ref, stream_frame, h0, mkFrame, hsd,
          Except.map]
      rw [hstep]
      apply ih (start + 1)
      · intro j hj
        rw [Function.update_noteq (by omega)]
        have heq : start + 1 + j = start + (j + 1) := by omega
        rw [heq]
        have := hinv (j + 1) (by simpa using Nat.succ_lt_succ hj)
        simpa using this
      · rcases hex with ⟨rs, hmem, hbad⟩
        rcases List.mem_cons.mp hmem with rfl | hmem2
        · rw [hsd] at hbad; simp [isOkE] at hbad
        · exact ⟨rs, hmem2, hbad⟩

lemma init_heap_copy (data : List (List Row)) (j : ℕ) (hj : j < data.length) :
    init_heap data (data.length + j) = mkFrame (data.getD j []) := by
  unfold init_heap
  rw [if_neg (by omega), if_pos (by omega), Nat.add_sub_cancel_left]

/-- A row whose stress 0.5 lies below the preload threshold 1. -/
def rowBad : Row := ⟨some 0, some (1/2), some 10⟩

/-- A row whose stress 5 passes the preload threshold 1. -/
def rowGood : Row := ⟨some 0, some 5, some 10⟩

/-- C5, counterexample: a sample whose rows are all removed by the preload
filter does not merely lose its own result row — it aborts construction
entirely (the `IndexError` of `.iloc[0]` is uncaught), even though the same
pipeline succeeds on the remaining sample alone. -/
theorem c5_counterexample :
    isOkE (tensile_test_init "%" (some 1) true [[rowBad], [rowGood]]) = false ∧
    isOkE (tensile_test_init "%" (some 1) true [[rowGood]]) = true := by
  constructor
  · norm_num +decide [tensile_test_init, strain_conversion_factor, init_heap,
      List.range', stream_fold, stream_step, streamline_ref, stream_frame,
      streamline_data, preload_kept, drop_duplicates, dedupGo, sort_values,
      List.insertionSort, List.orderedInsert, strainLE, keyLE, rowBad,
      rowComplete, stressGE, List.filter, Except.map, isOkE, mkFrame]
  · norm_num +decide [tensile_test_init, strain_conversion_factor, init_heap,
      List.range', stream_fold, stream_step, streamline_ref, stream_frame,
      streamline_data, preload_kept, drop_duplicates, dedupGo, sort_values,
      List.insertionSort, List.orderedInsert, strainLE, keyLE, rowGood,
      rowComplete, stressGE, List.filter, Except.map, isOkE, mkFrame,
      recompute_strain, toolVal, derivative, derivAt, strainVal, stressVal]

/-- C5, amended: if the preload filter removes every row of some sample, the
condition is not recoverable — construction aborts with an uncaught
exception, no results table is produced for any sample. -/
theorem c5_abort (unit : String) (p : ℚ) (data : List (List Row))
    (h : ∃ rows ∈ data, preload_kept p rows = []) :
    isOkE (tensile_test_init unit (some p) true data) = false := by
  cases hcf : strain_conversion_factor unit with
  | error e => simp [tensile_test_init, hcf, isOkE]
  | ok f =>
    have hbad : ∃ rows ∈ data, isOkE (streamline_data (some p) true f rows) = false := by
      rcases h with ⟨rs, hm, he⟩
      refine ⟨rs, hm, ?_⟩
      simp [streamline_data, he, isOkE]
    have hfold := stream_fold_error (some p) true f data data.length
      (init_heap data) (fun j hj => init_heap_copy data j hj) hbad
    cases hff : stream_fold (some p) true f
        (List.range' data.length data.length) (init_heap data) with
    | error e => simp [tensile_test_init, hcf, hff, isOkE]
    | ok heap1 => rw [hff] at hfold; simp [isOkE] at hfold

/-- Witness for the amended C5 theorem: the single-sample run whose only sample
is entirely below the preload threshold. -/
theorem c5_abort_witness :
    isOkE (tensile_test_init "%" (some 1) true [[rowBad]]) = false :=
  c5_abort "%" 1 [[rowBad]]
    ⟨[rowBad], by simp, by
      norm_num [preload_kept, drop_duplicates, dedupGo, sort_values,
        List.insertionSort, strainLE, keyLE, rowBad, rowComplete, stressGE,
        List.filter]⟩

lemma stream_fold_none_ok (ht : Bool) (f : ℚ) :
    ∀ (l : List ℕ) (heap : ℕ → Frame),
      ∃ heap', stream_fold none ht f l heap = .ok heap' := by
  intro l
  induction l with
  | nil => intro heap; exact ⟨heap, rfl⟩
  | cons a t ih =>
    intro heap
    have hstep : stream_step none ht f heap a = .ok (Function.update heap a
        ⟨(sort_values (drop_duplicates (heap a).rows)).filter (rowComplete ht),
          none⟩) := rfl
    rw [stream_fold, hstep]
    exact ih _

/-- C7: every strain unit other than the empty string and the percent sign
makes construction fail
with the unit-validation error, whatever the data — before any sample is
imported or cleaned; the two recognized units construct successfully (no
preload), with conversion factor 1 for the empty string and 100 for the
percent sign. -/
theorem c7_unit_validation :
    (∀ unit, unit ≠ "" → unit ≠ "%" → ∀ p ht data,
      tensile_test_init unit p ht data = .error "No valid unit_strain.") ∧
    (∀ ht data, ∃ st, tensile_test_init "" none ht data = .ok st ∧
      st.factor = 1) ∧
    (∀ ht data, ∃ st, tensile_test_init "%" none ht data = .ok st ∧
      st.factor = 100) := by
  refine ⟨?_, ?_, ?_⟩
  · intro unit h1 h2 p ht data
    simp [tensile_test_init, strain_conversion_factor, h1, h2]
  · intro ht data
    obtain ⟨heap', hh⟩ := stream_fold_none_ok ht 1
      (List.range' data.length data.length) (init_heap data)
    refine ⟨⟨1, heap', List.range data.length,
      List.range' data.length data.length, [], [], [], []⟩, ?_, rfl⟩
    have hcf : strain_conversion_factor "" = .ok 1 := rfl
    simp only [tensile_test_init, hcf, hh]
  · intro ht data
    obtain ⟨heap', hh⟩ := stream_fold_none_ok ht 100
      (List.range' data.length data.length) (init_heap data)
    refine ⟨⟨100, heap', List.range data.length,
      List.range' data.length data.length, [], [], [], []⟩, ?_, rfl⟩
    have hcf : strain_conversion_factor "%" = .ok 100 := by
      norm_num +decide [strain_conversion_factor]
    simp only [tensile_test_init, hcf, hh]

/-- Witness for C7 at the unit string kPa. -/
theorem c7_unit_validation_witness :
    tensile_test_init "kPa" none false [] = .error "No valid unit_strain." :=
  c7_unit_validation.1 "kPa" (by decide) (by decide) none false []

lemma trapz_eq_sum : ∀ (y x : List ℚ),
    trapz y x = ∑ i ∈ Finset.range (min y.length x.length - 1),
      (x.getD (i+1) 0 - x.getD i 0) * (y.getD i 0 + y.getD (i+1) 0) / 2
  | [], x => by simp [trapz]
  | [y0], x => by
    have h : min ([y0] : List ℚ).length x.length - 1 = 0 := by
      simp only [List.length_cons, List.length_nil]
      omega
    rw [h]
    simp [trapz]
  | y0 :: y1 :: ys, [] => by simp [trapz]
  | y0 :: y1 :: ys, [x0] => by
    have h : min (y0 :: y1 :: ys).length ([x0] : List ℚ).length - 1 = 0 := by
      simp only [List.length_cons, List.length_nil]
      omega
    rw [h]
    simp [trapz]
  | y0 :: y1 :: ys, x0 :: x1 :: xs => by
    show (x1 - x0) * (y0 + y1) / 2 + trapz (y1 :: ys) (x1 :: xs) = _
    rw [trapz_eq_sum (y1 :: ys) (x1 :: xs)]
    have h2 : min (y0 :: y1 :: ys).length (x0 :: x1 :: xs).length - 1 =
        min ys.length xs.length + 1 := by
      simp only [List.length_cons]
      omega
    have h3 : min (y1 :: ys).length (x1 :: xs).length - 1 =
        min ys.length xs.length := by
      simp only [List.length_cons]
      omega
    rw [h2, h3, Finset.sum_range_succ']
    have h4 : ∀ i, ((x0 :: x1 :: xs).getD (i+1+1) 0 - (x0 :: x1 :: xs).getD (i+1) 0) *
        ((y0 :: y1 :: ys).getD (i+1) 0 + (y0 :: y1 :: ys).getD (i+1+1) 0) / 2 =
        ((x1 :: xs).getD (i+1) 0 - (x1 :: xs).getD i 0) *
        ((y1 :: ys).getD i 0 + (y1 :: ys).getD (i+1) 0) / 2 := by
      intro i
      simp [List.getD_cons_succ]
    rw [Finset.sum_congr rfl (fun i _ => h4 i)]
    simp only [List.getD_cons_succ, List.getD_cons_zero]
    ring

lemma getD_map_val (g : Row → ℚ) (hg : g default = 0) :
    ∀ (l : List Row) (i : ℕ), (l.map g).getD i 0 = g (l.getD i default)
  | [], i => by simp [hg]
  | r :: t, 0 => rfl
  | r :: t, (i+1) => by simpa using getD_map_val g hg t i

/-- The toughness example: strain 0, 1, 2 (percent), stress 0, 10, 20. -/
def rowsC8 : List Row :=
  [⟨some 0, some 0, none⟩, ⟨some 1, some 10, none⟩, ⟨some 2, some 20, none⟩]

/-- C8: toughness is the trapezoidal integral of stress over strain, divided
by the conversion factor, rounded (half-to-even) to 1 decimal; on the
example curve (strain 0,1,2 in percent, stress 0,10,20) the trapezoidal
area is 20 and the reported toughness is 0.2. -/
theorem c8_toughness :
    (∀ (f : ℚ) (rows : List Row), calc_toughness_sample f rows =
      roundDec 1 ((∑ i ∈ Finset.range (rows.length - 1),
        (strainVal (rows.getD (i+1) default) - strainVal (rows.getD i default)) *
        (stressVal (rows.getD i default) + stressVal (rows.getD (i+1) default)) / 2) / f)) ∧
    trapz (rowsC8.map stressVal) (rowsC8.map strainVal) = 20 ∧
    calc_toughness_sample 100 rowsC8 = 1/5 := by
  refine ⟨?_, ?_, ?_⟩
  · intro f rows
    unfold calc_toughness_sample
    rw [trapz_eq_sum]
    have hlen : min (rows.map stressVal).length (rows.map strainVal).length - 1
        = rows.length - 1 := by
      simp [List.length_map]
    rw [hlen]
    have h4 : ∀ i, ((rows.map strainVal).getD (i+1) 0 -
          (rows.map strainVal).getD i 0) *
        ((rows.map stressVal).getD i 0 + (rows.map stressVal).getD (i+1) 0) / 2 =
        (strainVal (rows.getD (i+1) default) - strainVal (rows.getD i default)) *
        (stressVal (rows.getD i default) + stressVal (rows.getD (i+1) default)) / 2 := by
      intro i
      rw [getD_map_val strainVal rfl, getD_map_val strainVal rfl,
        getD_map_val stressVal rfl, getD_map_val stressVal rfl]
    rw [Finset.sum_congr rfl (fun i _ => h4 i)]
  · norm_num [trapz, rowsC8, stressVal, strainVal]
  · norm_num [calc_toughness_sample, trapz, rowsC8, stressVal, strainVal,
      roundDec, roundHalfEven]

lemma listMax_isSome : ∀ (l : List ℚ), l ≠ [] → ∃ m, listMax l = some m
  | [], h => absurd rfl h
  | a :: t, _ => by
    cases ht : listMax t with
    | none => exact ⟨a, by simp [listMax, ht]⟩
    | some m => exact ⟨max a m, by simp [listMax, ht]⟩

lemma listMax_mem : ∀ (l : List ℚ) (m : ℚ), listMax l = some m → m ∈ l
  | [], m, h => by simp [listMax] at h
  | a :: t, m, h => by
    cases ht : listMax t with
    | none =>
      simp only [listMax, ht, Option.some.injEq] at h
      subst h
      exact List.mem_cons_self _ _
    | some m2 =>
      simp only [listMax, ht, Option.some.injEq] at h
      subst h
      rcases le_total a m2 with hle | hle
      · rw [max_eq_right hle]
        exact List.mem_cons_of_mem _ (listMax_mem t m2 ht)
      · rw [max_eq_left hle]
        exact List.mem_cons_self _ _

lemma listMax_ge : ∀ (l : List ℚ) (m : ℚ), listMax l = some m → ∀ v ∈ l, v ≤ m
  | [], m, h => by simp [listMax] at h
  | a :: t, m, h => by
    cases ht : listMax t with
    | none =>
      simp only [listMax, ht, Option.some.injEq] at h
      subst h
      intro v hv
      cases t with
      | nil =>
        rw [List.mem_singleton] at hv
        exact le_of_eq hv
      | cons c t2 =>
        exfalso
        cases h2 : listMax t2 with
        | none => simp [listMax, h2] at ht
        | some mm => simp [listMax, h2] at ht
    | some m2 =>
      simp only [listMax, ht, Option.some.injEq] at h
      subst h
      intro v hv
      rcases List.mem_cons.mp hv with rfl | hv2
      · exact le_max_left _ _
      · exact le_trans (listMax_ge t m2 ht v hv2) (le_max_right _ _)

lemma findIdxOf_spec (m : ℚ) : ∀ (l : List ℚ), m ∈ l →
    findIdxOf m l < l.length ∧ l.getD (findIdxOf m l) 0 = m ∧
    ∀ j, j < findIdxOf m l → l.getD j 0 ≠ m
  | [], h => by simp at h
  | a :: t, h => by
    unfold findIdxOf
    rw [List.findIdx_cons]
    by_cases ha : a = m
    · rw [show (decide (a = m)) = true by simp [ha]]
      simp only [cond_true]
      refine ⟨by simp, by simpa using ha, ?_⟩
      intro j hj
      omega
    · rw [show (decide (a = m)) = false by simp [ha]]
      simp only [cond_false]
      have hm : m ∈ t := by
        rcases List.mem_cons.mp h with h1 | h2
        · exact absurd h1.symm ha
        · exact h2
      have ih := findIdxOf_spec m t hm
      unfold findIdxOf at ih
      refine ⟨by simpa using Nat.succ_lt_succ ih.1, by simpa using ih.2.1, ?_⟩
      intro j hj
      cases j with
      | zero => simpa using ha
      | succ j2 =>
        rw [List.getD_cons_succ]
        exact ih.2.2 j2 (by omega)


/-- The elongation example: strain 0, 1, 2, stress 1, 5, 3. -/
def rowsC9 : List Row :=
  [⟨some 0, some 1, none⟩, ⟨some 1, some 5, none⟩, ⟨some 2, some 3, none⟩]

/-- C9: on a non-empty cleaned curve, strength is the maximum stress rounded
(half-to-even) to 1 decimal, and elongation at break is the strain at the
first index attaining that maximum, rounded to 1 decimal; on the example
curve (strain 0,1,2, stress 1,5,3) strength is 5.0 and elongation 1.0. -/
theorem c9_strength_elongation :
    (∀ (rows : List Row), rows ≠ [] →
      ∃ m, listMax (rows.map stressVal) = some m ∧
        m ∈ rows.map stressVal ∧ (∀ v ∈ rows.map stressVal, v ≤ m) ∧
        calc_strength_sample rows = some (roundDec 1 m) ∧
        ∃ i, i < rows.length ∧ (rows.map stressVal).getD i 0 = m ∧
          (∀ j, j < i → (rows.map stressVal).getD j 0 ≠ m) ∧
          calc_elongation_sample rows =
            some (roundDec 1 ((rows.map strainVal).getD i 0))) ∧
    calc_strength_sample rowsC9 = some 5 ∧
    calc_elongation_sample rowsC9 = some 1 := by
  refine ⟨?_, ?_, ?_⟩
  · intro rows hne
    have hmapne : rows.map stressVal ≠ [] := by
      intro hc
      exact hne (List.map_eq_nil_iff.mp hc)
    obtain ⟨m, hm⟩ := listMax_isSome _ hmapne
    have hmem := listMax_mem _ _ hm
    have hidx := findIdxOf_spec m _ hmem
    refine ⟨m, hm, hmem, listMax_ge _ _ hm, ?_, findIdxOf m (rows.map stressVal),
      ?_, hidx.2.1, hidx.2.2, ?_⟩
    · unfold calc_strength_sample
      rw [hm]
      rfl
    · have := hidx.1
      rwa [List.length_map] at this
    · unfold calc_elongation_sample
      rw [hm]
      rfl
  · norm_num [calc_strength_sample, rowsC9, listMax, stressVal, roundDec,
      roundHalfEven, Option.map]
  · norm_num [calc_elongation_sample, rowsC9, listMax, stressVal, strainVal,
      findIdxOf, List.findIdx, List.findIdx.go, roundDec, roundHalfEven,
      Option.map]

/-- Witness for C9 at the example curve, discharging the non-emptiness
hypothesis there. -/
theorem c9_strength_elongation_witness :
    ∃ m, listMax (rowsC9.map stressVal) = some m ∧
      m ∈ rowsC9.map stressVal ∧ (∀ v ∈ rowsC9.map stressVal, v ≤ m) ∧
      calc_strength_sample rowsC9 = some (roundDec 1 m) ∧
      ∃ i, i < rowsC9.length ∧ (rowsC9.map stressVal).getD i 0 = m ∧
        (∀ j, j < i → (rowsC9.map stressVal).getD j 0 ≠ m) ∧
        calc_elongation_sample rowsC9 =
          some (roundDec 1 ((rowsC9.map strainVal).getD i 0)) :=
  c9_strength_elongation.1 rowsC9 (by simp [rowsC9])


lemma stream_fold_preserves (p : Option ℚ) (ht : Bool) (f : ℚ) :
    ∀ (l : List ℕ) (heap heap2 : ℕ → Frame),
      stream_fold p ht f l heap = .ok heap2 →
      ∀ i, (∀ j ∈ l, i ≠ j) → heap2 i = heap i := by
  intro l
  induction l with
  | nil =>
    intro heap heap2 h i _
    rw [stream_fold] at h
    cases h
    rfl
  | cons a t ih =>
    intro heap heap2 h i hni
    rw [stream_fold] at h
    cases hstep : stream_step p ht f heap a with
    | error e =>
      rw [hstep] at h
      exact Except.noConfusion h
    | ok hmid =>
      rw [hstep] at h
      change stream_fold p ht f t hmid = .ok heap2 at h
      have hrest := ih hmid heap2 h i (fun j hj => hni j (List.mem_cons_of_mem _ hj))
      rw [hrest]
      unfold stream_step streamline_ref at hstep
      cases hsf : stream_frame p ht f (heap a) with
      | error e =>
        rw [hsf] at hstep
        simp [Except.map] at hstep
      | ok fr =>
        rw [hsf] at hstep
        simp only [Except.map, Except.ok.injEq] at hstep
        rw [← hstep]
        exact Function.update_noteq (hni a (List.mem_cons_self _ _)) _ _

/-- C10: construction deep-copies the imported frames — after `__init__`, the
frames behind the `raw_original` references still hold the imported data
byte for byte, the `raw` references are fresh (disjoint from the originals),
`streamline_data` mutates the object behind the reference it is given and
returns that very reference (touching no other object), and every later
property computation leaves the heap unchanged. -/
theorem c10_deepcopy (unit : String) (preload : Option ℚ) (hasTool : Bool)
    (data : List (List Row))
    (h : isOkE (tensile_test_init unit preload hasTool data) = true) :
    ∃ st, tensile_test_init unit preload hasTool data = .ok st ∧
      (∀ j, j < data.length → st.heap j = mkFrame (data.getD j [])) ∧
      st.raw_original_refs = List.range data.length ∧
      st.raw_refs = List.range' data.length data.length ∧
      st.raw_original_refs.Disjoint st.raw_refs ∧
      (∀ (p2 : Option ℚ) (ht2 : Bool) (g : ℚ) (heap : ℕ → Frame) (i : ℕ)
          (hp : ℕ → Frame) (ri : ℕ),
        streamline_ref p2 ht2 g heap i = .ok (hp, ri) →
        ri = i ∧ ∀ j, j ≠ i → hp j = heap j) ∧
      (calc_strength_state st).heap = st.heap ∧
      (calc_toughness_state st).heap = st.heap ∧
      (calc_elongation_state st).heap = st.heap ∧
      (∀ tau lo up, (calc_e_modulus_state tau lo up st).heap = st.heap) := by
  cases hcf : strain_conversion_factor unit with
  | error e => simp [tensile_test_init, hcf, isOkE] at h
  | ok f =>
    cases hff : stream_fold preload hasTool f
        (List.range' data.length data.length) (init_heap data) with
    | error e => simp [tensile_test_init, hcf, hff, isOkE] at h
    | ok heap1 =>
      refine ⟨⟨f, heap1, List.range data.length,
        List.range' data.length data.length, [], [], [], []⟩, ?_, ?_, rfl, rfl,
        ?_, ?_, rfl, rfl, rfl, fun _ _ _ => rfl⟩
      · simp [tensile_test_init, hcf, hff]
      · intro j hj
        have hnotin : ∀ i ∈ List.range' data.length data.length, j ≠ i := by
          intro i hi
          rw [List.mem_range'_1] at hi
          omega
        have hpres := stream_fold_preserves preload hasTool f _ _ _ hff j hnotin
        show heap1 j = mkFrame (data.getD j [])
        rw [hpres]
        unfold init_heap
        rw [if_pos hj]
      · intro a ha hb
        rw [List.mem_range] at ha
        rw [List.mem_range'_1] at hb
        omega
      · intro p2 ht2 g heap i hp ri hsr
        unfold streamline_ref at hsr
        cases hsf : stream_frame p2 ht2 g (heap i) with
        | error e =>
          rw [hsf] at hsr
          simp [Except.map] at hsr
        | ok fr =>
          rw [hsf] at hsr
          simp only [Except.map, Except.ok.injEq, Prod.mk.injEq] at hsr
          refine ⟨hsr.2.symm, fun j hj => ?_⟩
          rw [← hsr.1]
          exact Function.update_noteq hj _ _

/-- Concrete single-sample input for the C10 witness. -/
def c10_data : List (List Row) := [[⟨some 0, some 1, none⟩]]

/-- Witness for C10 at a concrete one-sample run without preload. -/
theorem c10_deepcopy_witness :
    ∃ st, tensile_test_init "" none false c10_data = .ok st ∧
      (∀ j, j < c10_data.length → st.heap j = mkFrame (c10_data.getD j [])) ∧
      st.raw_original_refs = List.range c10_data.length ∧
      st.raw_refs = List.range' c10_data.length c10_data.length ∧
      st.raw_original_refs.Disjoint st.raw_refs ∧
      (∀ (p2 : Option ℚ) (ht2 : Bool) (g : ℚ) (heap : ℕ → Frame) (i : ℕ)
          (hp : ℕ → Frame) (ri : ℕ),
        streamline_ref p2 ht2 g heap i = .ok (hp, ri) →
        ri = i ∧ ∀ j, j ≠ i → hp j = heap j) ∧
      (calc_strength_state st).heap = st.heap ∧
      (calc_toughness_state st).heap = st.heap ∧
      (calc_elongation_state st).heap = st.heap ∧
      (∀ tau lo up, (calc_e_modulus_state tau lo up st).heap = st.heap) :=
  c10_deepcopy "" none false c10_data (by
    norm_num [tensile_test_init, strain_conversion_factor, init_heap,
      List.range', stream_fold, stream_step, streamline_ref, stream_frame,
      streamline_data, drop_duplicates, dedupGo, sort_values,
      List.insertionSort, strainLE, keyLE, c10_data, rowComplete,
      List.filter, Except.map, isOkE, mkFrame])

end PyTensile
